import Mathlib

/-!
Verification development for `langsmith_billing_report.py`.

The file shallowly embeds the core of the report generator: usage-record
normalization, per-key aggregation (`build_workspace_rows`,
`build_project_rows`), the per-org fetch pipeline's row-building stages,
and the post-collection steps of `main` (multi-org merge, full-key sort,
zero-value filtering, key deduplication).  Machine integers are modelled
as `Int`; Python `None` for the numeric field is modelled explicitly, and
the `TypeError` raised by `entry += None` is modelled with `Except`.
Network transport is out of scope: fetch results are parameters.
-/

/-- Value of the `traces` field of a raw usage record: the field may be
absent from the record dict, present but JSON `null`, or a number.
`record.get("traces", 0)` distinguishes absent (default 0) from null. -/
inductive TracesVal where
  | absent
  | null
  | num (n : Int)
  deriving DecidableEq

/-- One raw time-bucketed usage record: a `dimensions` dict of string
values (`none` models a JSON null value; an absent `dimensions` key
behaves like the empty dict) and the numeric `traces` field. -/
structure UsageRecord where
  dimensions : List (String × Option String)
  traces : TracesVal
  deriving DecidableEq

/-- Lookup in an insertion-ordered association list: Python `dict.get`. -/
def lookupA [DecidableEq κ] : List (κ × ε) → κ → Option ε
  | [], _ => none
  | e :: rest, k => if e.1 = k then some e.2 else lookupA rest k

/-- Replace the value stored at a key, keeping entry order and all other
entries: in-place mutation of the list object stored in a Python dict. -/
def setValA [DecidableEq κ] (m : List (κ × ε)) (k : κ) (v : ε) : List (κ × ε) :=
  m.map (fun e => if e.1 = k then (k, v) else e)

/-- Python `str(dims.get(key) or "")`: absent key, null value and the
empty string all collapse to `""`; any other string is kept. -/
def dimStr (dims : List (String × Option String)) (key : String) : String :=
  match lookupA dims key with
  | some (some s) => s
  | _ => ""

/-- Python `dims.get(key) or fallback`: the fallback is used when the key
is absent, its value is null, or its value is the empty string. -/
def orElseStr (v : Option (Option String)) (fallback : String) : String :=
  match v with
  | some (some s) => if s = "" then fallback else s
  | _ => fallback

/-- Label for a workspace row on first insert (line 208 of the source):
`dims.get("workspace_name") or "[unknown workspace: " + ws_id + "]"`. -/
def wsLabelOf (dims : List (String × Option String)) (wsId : String) : String :=
  orElseStr (lookupA dims "workspace_name") ("[unknown workspace: " ++ wsId ++ "]")

/-- Label for a project row on first insert (line 185 of the source). -/
def projLabelOf (dims : List (String × Option String)) (projId : String) : String :=
  orElseStr (lookupA dims "project_name") ("[unknown project: " ++ projId ++ "]")

/-- Python `record.get("traces", 0)`: `some n` is an int, `none` is
Python `None` (the value stored when the field is present but null). -/
def getTraces (r : UsageRecord) : Option Int :=
  match r.traces with
  | TracesVal.absent => some 0
  | TracesVal.null => none
  | TracesVal.num n => some n

/-- Message for the TypeError raised by `entry += value` on `None`. -/
def pyAddErr : String := "TypeError: unsupported operand type for +="

/-- Python `a += b` on the stored running total: adding works only when
both operands are numbers; `None` on either side raises a TypeError. -/
def pyAdd : Option Int → Option Int → Except String (Option Int)
  | some a, some b => Except.ok (some (a + b))
  | _, _ => Except.error pyAddErr

/-- Strict codepoint-lexicographic comparison of char lists, matching
Python string `<`. -/
def charsLt : List Char → List Char → Bool
  | [], [] => false
  | [], _ :: _ => true
  | _ :: _, [] => false
  | c :: cs, d :: ds =>
    if c.val.toNat < d.val.toNat then true
    else if d.val.toNat < c.val.toNat then false
    else charsLt cs ds

/-- Non-strict codepoint-lexicographic comparison of char lists. -/
def charsLe : List Char → List Char → Bool
  | [], _ => true
  | _ :: _, [] => false
  | c :: cs, d :: ds =>
    if c.val.toNat < d.val.toNat then true
    else if d.val.toNat < c.val.toNat then false
    else charsLe cs ds

/-- Python `a < b` on strings. -/
def strLtB (a b : String) : Bool := charsLt a.data b.data

/-- Python `a <= b` on strings. -/
def strLeB (a b : String) : Bool := charsLe a.data b.data

/-- Python `a == b` on strings. -/
def strEqB (a b : String) : Bool := a == b

/-- Stable insertion of one element into a sorted list: the new element
goes before the first element it compares `le` to, hence after any equal
elements already present. -/
def pyInsert (le : α → α → Bool) (x : α) : List α → List α
  | [] => [x]
  | y :: ys => if le x y then x :: y :: ys else y :: pyInsert le x ys

/-- Model of Python `sorted(xs, key=...)`: a stable comparison sort.  For
a total preorder every stable sort yields the same list, so a stable
insertion sort is an exact model of Timsort's observable behavior. -/
def pySortBy (le : α → α → Bool) : List α → List α
  | [] => []
  | x :: xs => pyInsert le x (pySortBy le xs)

/-- Output row of the workspace-level granular report:
`{"org": .., "workspace": .., "traces": ..}`.  `traces` is `Option Int`
because the stored running total can be Python `None` (null input). -/
structure WorkspaceRow where
  org : String
  workspace : String
  traces : Option Int
  deriving DecidableEq

/-- Output row of the project-level granular report. -/
structure ProjectRow where
  org : String
  workspace : String
  project : String
  traces : Option Int
  deriving DecidableEq

/-- Output row of the overview report; `value` is the already-truncated
int the source stores (`int(value)` at line 249). -/
structure OverviewRow where
  org : String
  workspace : String
  metric : String
  value : Int
  deriving DecidableEq

/-- Sort key of `build_workspace_rows` (line 218): the workspace label. -/
def wsRowLe (r s : WorkspaceRow) : Bool := strLeB r.workspace s.workspace

/-- Sort key of `build_project_rows` (line 195): `(workspace, project)`
compared as a Python tuple. -/
def projRowLe (r s : ProjectRow) : Bool :=
  strLtB r.workspace s.workspace ||
    (strEqB r.workspace s.workspace && strLeB r.project s.project)

/-- The full sort key of `main` line 428 on workspace-mode rows:
`(org, workspace, "", "")` compared as a Python tuple (`project` and
`metric` are absent from these rows, so `r.get` yields `""`). -/
def fullLeW (r s : WorkspaceRow) : Bool :=
  strLtB r.org s.org || (strEqB r.org s.org && strLeB r.workspace s.workspace)

/-- The full sort key of `main` line 428 on project-mode rows:
`(org, workspace, project, "")` compared as a Python tuple. -/
def fullLeP (r s : ProjectRow) : Bool :=
  strLtB r.org s.org ||
    (strEqB r.org s.org &&
      (strLtB r.workspace s.workspace ||
        (strEqB r.workspace s.workspace && strLeB r.project s.project)))

/-- The full sort key of `main` line 428 on overview rows:
`(org, workspace, "", metric)` compared as a Python tuple. -/
def fullLeO (r s : OverviewRow) : Bool :=
  strLtB r.org s.org ||
    (strEqB r.org s.org &&
      (strLtB r.workspace s.workspace ||
        (strEqB r.workspace s.workspace && strLeB r.metric s.metric)))

/-- Normalized aggregation key of a record in workspace grouping
(line 205): `str(dims.get("workspace_id") or "")`. -/
def wsKeyOf (r : UsageRecord) : String := dimStr r.dimensions "workspace_id"

/-- The label a record supplies when it is the first for its key. -/
def labelFor (r : UsageRecord) : String := wsLabelOf r.dimensions (wsKeyOf r)

/-- Accumulator of `build_workspace_rows`: insertion-ordered dict
`ws_id -> [ws_name, traces]`. -/
abbrev WsMap : Type := List (String × String × Option Int)

/-- One iteration of the loop at lines 203-211 of the source. -/
def aggWsStep (m : WsMap) (r : UsageRecord) : Except String WsMap :=
  match lookupA m (wsKeyOf r) with
  | none => Except.ok (m ++ [(wsKeyOf r, labelFor r, getTraces r)])
  | some (name, t) =>
    match pyAdd t (getTraces r) with
    | Except.ok t2 => Except.ok (setValA m (wsKeyOf r) (name, t2))
    | Except.error e => Except.error e

/-- The whole record loop of `build_workspace_rows`, from accumulator `m`. -/
def aggWsFold (m : WsMap) : List UsageRecord → Except String WsMap
  | [] => Except.ok m
  | r :: rs =>
    match aggWsStep m r with
    | Except.ok m2 => aggWsFold m2 rs
    | Except.error e => Except.error e

/-- The aggregation dict built by `build_workspace_rows` (lines 201-211). -/
def aggWs (records : List UsageRecord) : Except String WsMap :=
  aggWsFold [] records

/-- `build_workspace_rows` (lines 199-219): aggregate time-bucketed
granular records into one row per workspace and sort by workspace label. -/
def build_workspace_rows (records : List UsageRecord) (orgName : String) :
    Except String (List WorkspaceRow) :=
  match aggWs records with
  | Except.ok m =>
    Except.ok (pySortBy wsRowLe (m.map (fun e => ⟨orgName, e.2.1, e.2.2⟩)))
  | Except.error e => Except.error e

/-- Accumulator of `build_project_rows`: insertion-ordered dict
`(workspace_name, proj_id) -> [ws_name, proj_name, traces]`. -/
abbrev PMap : Type := List ((String × String) × String × String × Option Int)

/-- Normalized project id of a record (line 181). -/
def projKeyOf (r : UsageRecord) : String := dimStr r.dimensions "project_id"

/-- One iteration of the loop at lines 179-188 of the source.  The
workspace name is the caller-supplied parameter, stamped into the key. -/
def aggProjStep (wsName : String) (m : PMap) (r : UsageRecord) : Except String PMap :=
  match lookupA m (wsName, projKeyOf r) with
  | none =>
    Except.ok (m ++ [((wsName, projKeyOf r),
      wsName, projLabelOf r.dimensions (projKeyOf r), getTraces r)])
  | some (w, p, t) =>
    match pyAdd t (getTraces r) with
    | Except.ok t2 => Except.ok (setValA m (wsName, projKeyOf r) (w, p, t2))
    | Except.error e => Except.error e

/-- The whole record loop of `build_project_rows`, from accumulator `m`. -/
def aggProjFold (wsName : String) (m : PMap) : List UsageRecord → Except String PMap
  | [] => Except.ok m
  | r :: rs =>
    match aggProjStep wsName m r with
    | Except.ok m2 => aggProjFold wsName m2 rs
    | Except.error e => Except.error e

/-- `build_project_rows` (lines 165-196): aggregate granular records into
one row per `(workspace, project)` and sort by `(workspace, project)`. -/
def build_project_rows (records : List UsageRecord) (orgName : String)
    (wsName : String) : Except String (List ProjectRow) :=
  match aggProjFold wsName [] records with
  | Except.ok m =>
    Except.ok (pySortBy projRowLe
      (m.map (fun e => ⟨orgName, e.2.1, e.2.2.1, e.2.2.2⟩)))
  | Except.error e => Except.error e

/-- Workspace-level branch of `fetch_org_rows` (lines 311-312 and
336-340): an empty workspace index short-circuits to zero rows;
otherwise the rows are built from the transport's response `records`
(the index itself is only used to form the request) and re-sorted by
workspace label. -/
def fetchOrgRowsWorkspaceLevel (wsIndex : List (String × String))
    (records : List UsageRecord) (orgName : String) :
    Except String (List WorkspaceRow) :=
  if wsIndex.isEmpty then Except.ok []
  else
    match build_workspace_rows records orgName with
    | Except.ok rows => Except.ok (pySortBy wsRowLe rows)
    | Except.error e => Except.error e

/-- The per-workspace loop of the project-level branch of
`fetch_org_rows` (lines 327-334): one fetch per workspace, rows built
with that workspace's known display name, concatenated in index order;
any error aborts the whole organization. -/
def projLoop (orgName : String) (fetch : String → List UsageRecord) :
    List (String × String) → Except String (List ProjectRow)
  | [] => Except.ok []
  | (wsId, wsName) :: rest =>
    match build_project_rows (fetch wsId) orgName wsName with
    | Except.ok wsRows =>
      match projLoop orgName fetch rest with
      | Except.ok restRows => Except.ok (wsRows ++ restRows)
      | Except.error e => Except.error e
    | Except.error e => Except.error e

/-- Project-level branch of `fetch_org_rows` (lines 311-312 and
320-335): empty index short-circuits; otherwise the per-workspace loop
runs and the concatenation is sorted by `(workspace, project)`. -/
def fetchOrgRowsProjectLevel (wsIndex : List (String × String))
    (fetch : String → List UsageRecord) (orgName : String) :
    Except String (List ProjectRow) :=
  if wsIndex.isEmpty then Except.ok []
  else
    match projLoop orgName fetch wsIndex with
    | Except.ok rows => Except.ok (pySortBy projRowLe rows)
    | Except.error e => Except.error e

/-- Python truthiness of `r.get("traces", 0)` for a granular row: `None`
and `0` are falsy, every other int is truthy (line 432). -/
def truthy : Option Int → Bool
  | none => false
  | some n => decide (n ≠ 0)

/-- Zero-value filter of `main` (lines 430-432) on workspace-mode rows. -/
def dropZeroW (rows : List WorkspaceRow) : List WorkspaceRow :=
  rows.filter (fun r => truthy r.traces)

/-- Zero-value filter of `main` (lines 430-432) on project-mode rows. -/
def dropZeroP (rows : List ProjectRow) : List ProjectRow :=
  rows.filter (fun r => truthy r.traces)

/-- Zero-value filter of `main` (lines 430-432) on overview rows: the
field is `value`, an int, so only `0` is falsy. -/
def dropZeroO (rows : List OverviewRow) : List OverviewRow :=
  rows.filter (fun r => decide (r.value ≠ 0))

/-- Dedup key in workspace mode (line 447): `(org, workspace)`. -/
def dedupKeyW (r : WorkspaceRow) : String × String := (r.org, r.workspace)

/-- Dedup key in project mode (line 444): `(org, workspace, project)`. -/
def dedupKeyP (r : ProjectRow) : String × String × String :=
  (r.org, r.workspace, r.project)

/-- Dedup key in overview mode (line 441): `(org, workspace, metric)`. -/
def dedupKeyO (r : OverviewRow) : String × String × String :=
  (r.org, r.workspace, r.metric)

/-- The seen-set loop of `main` (lines 449-455): keep a row when its key
has not been seen, in input order. -/
def dedupGo [DecidableEq κ] (key : α → κ) (seen : List κ) : List α → List α
  | [] => []
  | r :: rs =>
    if key r ∈ seen then dedupGo key seen rs
    else r :: dedupGo key (key r :: seen) rs

/-- Deduplication by key, first occurrence kept (lines 449-458). -/
def dedupBy [DecidableEq κ] (key : α → κ) (rows : List α) : List α :=
  dedupGo key [] rows

/-- Report Finalizer on workspace-mode rows: zero-value filter followed
by key dedup (lines 430-458; the combined-result sort of line 428 runs
before this and only in the multi-org branch). -/
def finalizeW (rows : List WorkspaceRow) : List WorkspaceRow :=
  dedupBy dedupKeyW (dropZeroW rows)

/-- Report Finalizer on project-mode rows (lines 430-458). -/
def finalizeP (rows : List ProjectRow) : List ProjectRow :=
  dedupBy dedupKeyP (dropZeroP rows)

/-- Report Finalizer on overview rows (lines 430-458). -/
def finalizeO (rows : List OverviewRow) : List OverviewRow :=
  dedupBy dedupKeyO (dropZeroO rows)

/-- Merge loop of the multi-org branch (lines 420-425): task outcomes
arrive in some completion order (the list order here); a successful
task's rows are appended, a failed task's error is recorded against its
org name and the loop continues. -/
def mergeOutcomes : List (String × Except String (List α)) →
    List α × List (String × String)
  | [] => ([], [])
  | (_name, Except.ok rows) :: rest =>
    let m := mergeOutcomes rest
    (rows ++ m.1, m.2)
  | (name, Except.error e) :: rest =>
    let m := mergeOutcomes rest
    (m.1, (name, e) :: m.2)

/-- Single-org branch of `main` (lines 400-407): `fetch_org_rows` is
called directly with no exception handler, so a failure propagates and
aborts the run; a success yields the rows with no recorded failures. -/
def runSinglePath (task : String × Except String (List WorkspaceRow)) :
    Except String (List WorkspaceRow × List (String × String)) :=
  match task.2 with
  | Except.ok rows => Except.ok (rows, [])
  | Except.error e => Except.error e

/-- Multi-org branch of `main` (lines 409-428): merge the task outcomes
with per-task failure isolation, then sort the combined rows by the full
key tuple.  Always produces a report. -/
def runMultiPath (tasks : List (String × Except String (List WorkspaceRow))) :
    List WorkspaceRow × List (String × String) :=
  let m := mergeOutcomes tasks
  (pySortBy fullLeW m.1, m.2)

/-- Numeric value of a record when the run does not hit a TypeError:
absent contributes the `get` default 0, a number contributes itself. -/
def traceInt (r : UsageRecord) : Int :=
  match r.traces with
  | TracesVal.absent => 0
  | TracesVal.null => 0
  | TracesVal.num n => n

/-- No record carries a present-but-null `traces` field. -/
def validTraces (records : List UsageRecord) : Prop :=
  ∀ r ∈ records, r.traces ≠ TracesVal.null

instance (records : List UsageRecord) : Decidable (validTraces records) := by
  unfold validTraces
  infer_instance

/-- Pure image of the workspace accumulator, used when no TypeError can
occur: every stored total is a number. -/
abbrev WsMapP : Type := List (String × String × Int)

/-- Wrap every stored total of a pure accumulator back into the
Python-valued accumulator. -/
def liftW (p : WsMapP) : WsMap :=
  p.map (fun e => (e.1, e.2.1, some e.2.2))

/-- Pure image of `aggWsStep` on records with no null traces. -/
def aggWsStepP (p : WsMapP) (r : UsageRecord) : WsMapP :=
  match lookupA p (wsKeyOf r) with
  | none => p ++ [(wsKeyOf r, labelFor r, traceInt r)]
  | some (name, t) => setValA p (wsKeyOf r) (name, t + traceInt r)

/-- Pure image of `aggWsFold`. -/
def aggWsFoldP (p : WsMapP) : List UsageRecord → WsMapP
  | [] => p
  | r :: rs => aggWsFoldP (aggWsStepP p r) rs

/-- Sum of the numeric values of the records whose normalized workspace
key is `k`. -/
def sumK (records : List UsageRecord) (k : String) : Int :=
  ((records.filter (fun r => decide (wsKeyOf r = k))).map traceInt).sum

/-- The project label a record supplies when it is the first for its
key in `build_project_rows` (line 185). -/
def projLabelFor (r : UsageRecord) : String :=
  projLabelOf r.dimensions (projKeyOf r)

/-- Pure image of the project accumulator, used when no TypeError can
occur: every stored total is a number. -/
abbrev PMapP : Type := List ((String × String) × String × String × Int)

/-- Wrap every stored total of a pure project accumulator back into the
Python-valued accumulator. -/
def liftP (p : PMapP) : PMap :=
  p.map (fun e => (e.1, e.2.1, e.2.2.1, some e.2.2.2))

/-- Pure image of `aggProjStep` on records with no null traces. -/
def aggProjStepP (wsName : String) (p : PMapP) (r : UsageRecord) : PMapP :=
  match lookupA p (wsName, projKeyOf r) with
  | none => p ++ [((wsName, projKeyOf r),
      wsName, projLabelOf r.dimensions (projKeyOf r), traceInt r)]
  | some (w, pn, t) =>
    setValA p (wsName, projKeyOf r) (w, pn, t + traceInt r)

/-- Pure image of `aggProjFold`. -/
def aggProjFoldP (wsName : String) (p : PMapP) : List UsageRecord → PMapP
  | [] => p
  | r :: rs => aggProjFoldP wsName (aggProjStepP wsName p r) rs

/-- Sum of the numeric values of the records whose normalized project
key is `pid`. -/
def sumP (records : List UsageRecord) (pid : String) : Int :=
  ((records.filter (fun r => decide (projKeyOf r = pid))).map traceInt).sum

/-! ## Concrete inputs used by counterexamples and witnesses -/

/-- The spec's reference scenario records: two buckets for `w1` (5 and 3
traces) and one zero bucket for `w2`; no `workspace_name` dimension. -/
def scenRecs : List UsageRecord :=
  [ ⟨[("workspace_id", some "w1")], TracesVal.num 5⟩,
    ⟨[("workspace_id", some "w1")], TracesVal.num 3⟩,
    ⟨[("workspace_id", some "w2")], TracesVal.num 0⟩ ]

/-- The aggregation dict `build_workspace_rows` builds from `scenRecs`. -/
def scenMap : WsMap :=
  [ ("w1", "[unknown workspace: w1]", some 8),
    ("w2", "[unknown workspace: w2]", some 0) ]

/-- Two records for one workspace whose `traces` field is null first and
numeric second: the accumulation step then adds an int to `None`. -/
def nullRecs : List UsageRecord :=
  [ ⟨[("workspace_id", some "w")], TracesVal.null⟩,
    ⟨[("workspace_id", some "w")], TracesVal.num 1⟩ ]

/-- Two records for one workspace: the first carries the real display
name, the second an empty one. -/
def nameRecs : List UsageRecord :=
  [ ⟨[("workspace_id", some "w"), ("workspace_name", some "Real")], TracesVal.num 1⟩,
    ⟨[("workspace_id", some "w"), ("workspace_name", some "")], TracesVal.num 2⟩ ]

/-- The aggregation dict built from `nameRecs`: the first-seen label is
kept while both values are summed. -/
def nameMap : WsMap := [("w", "Real", some 3)]

/-- Two already-sorted workspace rows used to instantiate theorems. -/
def wRowsEx : List WorkspaceRow :=
  [⟨"o", "a", some 1⟩, ⟨"o", "b", some 2⟩]

/-- Transport stub for the project-level loop: two workspaces that share
the display name `Dup`, each owning a distinct project (`p1` with 10
traces, `p2` with 7) whose display name is `P` in both. -/
def exFetch : String → List UsageRecord := fun wsId =>
  if wsId = "id1" then
    [⟨[("project_id", some "p1"), ("project_name", some "P")], TracesVal.num 10⟩]
  else
    [⟨[("project_id", some "p2"), ("project_name", some "P")], TracesVal.num 7⟩]

/-- The rows the project-level pipeline produces from `exFetch`: two
distinct projects in two distinct workspaces, with identical labels. -/
def exPRows : List ProjectRow :=
  [⟨"Org", "Dup", "P", some 10⟩, ⟨"Org", "Dup", "P", some 7⟩]

/-- Two records for one project within one workspace call: the first
carries the real project name `P`, the second an empty one. -/
def projRecs : List UsageRecord :=
  [ ⟨[("project_id", some "p1"), ("project_name", some "P")], TracesVal.num 10⟩,
    ⟨[("project_id", some "p1"), ("project_name", some "")], TracesVal.num 5⟩ ]

/-- The aggregation dict `build_project_rows` builds from `projRecs`
when called with workspace name `Dup`: first-seen label `P` is kept,
both values are summed. -/
def projMapEx : PMap := [(("Dup", "p1"), "Dup", "P", some 15)]

/-! ## Association-list lemmas -/

theorem lookupA_append_of_none [DecidableEq κ] {p : List (κ × ε)} {k : κ}
    (q : List (κ × ε)) (h : lookupA p k = none) :
    lookupA (p ++ q) k = lookupA q k := by
  induction p with
  | nil => simp
  | cons e rest ih =>
    by_cases he : e.1 = k
    · simp [lookupA, he] at h
    · simp only [lookupA, he, if_neg, List.cons_append] at h ⊢
      exact ih h

theorem lookupA_append_of_some [DecidableEq κ] {p : List (κ × ε)} {k : κ} {v : ε}
    (q : List (κ × ε)) (h : lookupA p k = some v) :
    lookupA (p ++ q) k = some v := by
  induction p with
  | nil => simp [lookupA] at h
  | cons e rest ih =>
    by_cases he : e.1 = k
    · simp only [lookupA, he, if_pos] at h ⊢
      exact h
    · simp only [lookupA, he, if_neg, List.cons_append] at h ⊢
      exact ih h

theorem lookupA_singleton_self [DecidableEq κ] (k : κ) (v : ε) :
    lookupA [(k, v)] k = some v := by
  simp [lookupA]

theorem lookupA_singleton_ne [DecidableEq κ] {k k2 : κ} (v : ε) (h : k ≠ k2) :
    lookupA [(k, v)] k2 = none := by
  simp [lookupA, h]

theorem lookupA_setValA_self [DecidableEq κ] {m : List (κ × ε)} {k : κ} {w : ε}
    (v : ε) (h : lookupA m k = some w) :
    lookupA (setValA m k v) k = some v := by
  induction m with
  | nil => simp [lookupA] at h
  | cons e rest ih =>
    obtain ⟨k1, v1⟩ := e
    by_cases he : k1 = k
    · simp [lookupA, setValA, he]
    · simp only [lookupA, if_neg he] at h
      simp only [setValA, List.map_cons] at ih ⊢
      simp [lookupA, he, ih h]

theorem lookupA_setValA_ne [DecidableEq κ] (m : List (κ × ε)) {k k2 : κ}
    (v : ε) (h : k2 ≠ k) :
    lookupA (setValA m k v) k2 = lookupA m k2 := by
  induction m with
  | nil => simp [setValA, lookupA]
  | cons e rest ih =>
    obtain ⟨k1, v1⟩ := e
    simp only [setValA, List.map_cons] at ih ⊢
    by_cases he : k1 = k
    · have hk : ¬ k = k2 := fun hh => h hh.symm
      subst he
      simp [lookupA, hk, ih, h.symm]
    · simp only [if_neg he]
      by_cases h2 : k1 = k2
      · simp [lookupA, h2]
      · simp [lookupA, h2, ih]

theorem lookupA_mem [DecidableEq κ] {m : List (κ × ε)} {k : κ} {v : ε}
    (h : lookupA m k = some v) : (k, v) ∈ m := by
  induction m with
  | nil => simp [lookupA] at h
  | cons e rest ih =>
    obtain ⟨k1, v1⟩ := e
    by_cases he : k1 = k
    · simp only [lookupA, he, if_pos, Option.some.injEq] at h
      subst he
      subst h
      exact List.mem_cons_self _ _
    · simp only [lookupA, if_neg he] at h
      exact List.mem_cons_of_mem _ (ih h)

theorem mem_setValA [DecidableEq κ] {m : List (κ × ε)} {k : κ} {v : ε} {e : κ × ε}
    (h : e ∈ setValA m k v) : e ∈ m ∨ e = (k, v) := by
  simp only [setValA, List.mem_map] at h
  obtain ⟨x, hx, hfx⟩ := h
  by_cases hxk : x.1 = k
  · right
    rw [← hfx, if_pos hxk]
  · left
    rw [← hfx, if_neg hxk]
    exact hx

/-! ## Bridge between the Python-valued and the pure workspace aggregator -/

theorem lookupA_liftW (p : WsMapP) (k : String) :
    lookupA (liftW p) k = (lookupA p k).map (fun e => (e.1, some e.2)) := by
  induction p with
  | nil => simp [liftW, lookupA]
  | cons e rest ih =>
    obtain ⟨k1, n1, t1⟩ := e
    by_cases he : k1 = k
    · simp [liftW, lookupA, he]
    · simp only [liftW, List.map_cons] at ih ⊢
      simp [lookupA, he, ih]

theorem setValA_liftW (p : WsMapP) (k : String) (n : String) (t : Int) :
    setValA (liftW p) k (n, some t) = liftW (setValA p k (n, t)) := by
  induction p with
  | nil => simp [liftW, setValA]
  | cons e rest ih =>
    obtain ⟨k1, n1, t1⟩ := e
    simp only [liftW, setValA, List.map_cons] at ih ⊢
    by_cases he : k1 = k
    · simp [he, ih]
    · simp [he, ih]

theorem getTraces_of_valid {r : UsageRecord} (h : r.traces ≠ TracesVal.null) :
    getTraces r = some (traceInt r) := by
  cases hr : r.traces with
  | absent => simp [getTraces, traceInt, hr]
  | null => exact absurd hr h
  | num n => simp [getTraces, traceInt, hr]

theorem aggWsFold_lift (records : List UsageRecord) :
    ∀ p : WsMapP, (∀ r ∈ records, r.traces ≠ TracesVal.null) →
    aggWsFold (liftW p) records = Except.ok (liftW (aggWsFoldP p records)) := by
  induction records with
  | nil => intro p _; simp [aggWsFold, aggWsFoldP]
  | cons r rs ih =>
    intro p hv
    have hr : r.traces ≠ TracesVal.null := hv r (List.mem_cons_self _ _)
    have hrs : ∀ x ∈ rs, x.traces ≠ TracesVal.null :=
      fun x hx => hv x (List.mem_cons_of_mem _ hx)
    simp only [aggWsFold, aggWsFoldP, aggWsStep, aggWsStepP]
    rw [lookupA_liftW]
    cases hl : lookupA p (wsKeyOf r) with
    | none =>
      have h1 : Option.map (fun e : String × Int => (e.1, some e.2)) none = none := rfl
      simp only [h1, getTraces_of_valid hr]
      have h2 : liftW p ++ [(wsKeyOf r, labelFor r, some (traceInt r))] =
          liftW (p ++ [(wsKeyOf r, labelFor r, traceInt r)]) := by
        simp [liftW]
      rw [h2]
      exact ih _ hrs
    | some e =>
      obtain ⟨name, t⟩ := e
      have h1 : Option.map (fun e : String × Int => (e.1, some e.2)) (some (name, t)) =
          some (name, some t) := rfl
      simp only [h1, getTraces_of_valid hr, pyAdd]
      rw [setValA_liftW]
      exact ih _ hrs

theorem aggWs_lift {records : List UsageRecord} (h : validTraces records) :
    aggWs records = Except.ok (liftW (aggWsFoldP [] records)) := by
  have : liftW [] = ([] : WsMap) := rfl
  rw [aggWs, ← this]
  exact aggWsFold_lift records [] h

/-! ## Value and label content of the workspace aggregator -/

theorem sumK_nil (k : String) : sumK [] k = 0 := rfl

theorem sumK_cons_eq {r : UsageRecord} {k : String} (rs : List UsageRecord)
    (h : wsKeyOf r = k) : sumK (r :: rs) k = traceInt r + sumK rs k := by
  simp [sumK, List.filter_cons, h]

theorem sumK_cons_ne {r : UsageRecord} {k : String} (rs : List UsageRecord)
    (h : ¬ wsKeyOf r = k) : sumK (r :: rs) k = sumK rs k := by
  simp [sumK, List.filter_cons, h]

theorem aggWsFoldP_lookup (records : List UsageRecord) :
    ∀ (p : WsMapP) (k : String),
    lookupA (aggWsFoldP p records) k =
      match lookupA p k with
      | some e => some (e.1, e.2 + sumK records k)
      | none =>
        match records.find? (fun r => decide (wsKeyOf r = k)) with
        | some r0 => some (labelFor r0, sumK records k)
        | none => none := by
  induction records with
  | nil =>
    intro p k
    cases hl : lookupA p k with
    | none => simp [aggWsFoldP, hl, List.find?]
    | some e => simp [aggWsFoldP, hl, sumK_nil]
  | cons r rs ih =>
    intro p k
    by_cases hk : wsKeyOf r = k
    · cases hl : lookupA p k with
      | some e =>
        obtain ⟨n, t⟩ := e
        have hstepl : lookupA (aggWsStepP p r) k = some (n, t + traceInt r) := by
          simp only [aggWsStepP, hk, hl]
          exact lookupA_setValA_self _ hl
        have h2 := ih (aggWsStepP p r) k
        simp only [hstepl] at h2
        simp only [aggWsFoldP, h2, hl, sumK_cons_eq rs hk, add_assoc]
      | none =>
        have hstepl : lookupA (aggWsStepP p r) k = some (labelFor r, traceInt r) := by
          simp only [aggWsStepP, hk, hl]
          rw [lookupA_append_of_none _ hl]
          exact lookupA_singleton_self _ _
        have h2 := ih (aggWsStepP p r) k
        simp only [hstepl] at h2
        have hfind : List.find? (fun x => decide (wsKeyOf x = k)) (r :: rs) = some r :=
          List.find?_cons_of_pos _ (by simp [hk])
        simp only [aggWsFoldP, h2, hl, hfind, sumK_cons_eq rs hk]
    · have hkr : k ≠ wsKeyOf r := fun hh => hk hh.symm
      have hstepl : lookupA (aggWsStepP p r) k = lookupA p k := by
        cases hpr : lookupA p (wsKeyOf r) with
        | none =>
          simp only [aggWsStepP, hpr]
          cases hpk : lookupA p k with
          | some v => rw [lookupA_append_of_some _ hpk]
          | none =>
            rw [lookupA_append_of_none _ hpk, lookupA_singleton_ne _ hk]
        | some e =>
          obtain ⟨n, t⟩ := e
          simp only [aggWsStepP, hpr]
          exact lookupA_setValA_ne p _ hkr
      have h2 := ih (aggWsStepP p r) k
      rw [hstepl] at h2
      have hfind : List.find? (fun x => decide (wsKeyOf x = k)) (r :: rs) =
          List.find? (fun x => decide (wsKeyOf x = k)) rs :=
        List.find?_cons_of_neg _ (by simp [hk])
      simp only [aggWsFoldP, h2, hfind, sumK_cons_ne rs hk]

theorem aggWsFold_label (records : List UsageRecord) :
    ∀ (m m2 : WsMap), aggWsFold m records = Except.ok m2 → ∀ k,
    (lookupA m2 k).map (fun e => e.1) =
      match lookupA m k with
      | some e => some e.1
      | none => (records.find? (fun r => decide (wsKeyOf r = k))).map labelFor := by
  induction records with
  | nil =>
    intro m m2 h k
    simp only [aggWsFold, Except.ok.injEq] at h
    subst h
    cases hl : lookupA m k with
    | none => simp [hl, List.find?]
    | some e => simp [hl]
  | cons r rs ih =>
    intro m m2 h k
    simp only [aggWsFold, aggWsStep] at h
    cases hml : lookupA m (wsKeyOf r) with
    | none =>
      simp only [hml] at h
      have h2 := ih _ m2 h k
      by_cases hk : wsKeyOf r = k
      · subst hk
        have hl1 : lookupA (m ++ [(wsKeyOf r, labelFor r, getTraces r)]) (wsKeyOf r) =
            some (labelFor r, getTraces r) := by
          rw [lookupA_append_of_none _ hml]
          exact lookupA_singleton_self _ _
        simp only [hl1] at h2
        have hfind : List.find? (fun x => decide (wsKeyOf x = wsKeyOf r)) (r :: rs) =
            some r :=
          List.find?_cons_of_pos _ (by simp)
        simp [h2, hml, hfind]
      · have hl1 : lookupA (m ++ [(wsKeyOf r, labelFor r, getTraces r)]) k =
            lookupA m k := by
          cases hpk : lookupA m k with
          | some v => rw [lookupA_append_of_some _ hpk]
          | none =>
            rw [lookupA_append_of_none _ hpk, lookupA_singleton_ne _ hk]
        rw [hl1] at h2
        have hfind : List.find? (fun x => decide (wsKeyOf x = k)) (r :: rs) =
            List.find? (fun x => decide (wsKeyOf x = k)) rs :=
          List.find?_cons_of_neg _ (by simp [hk])
        simp only [h2, hfind]
    | some e =>
      obtain ⟨name, t⟩ := e
      simp only [hml] at h
      cases hpa : pyAdd t (getTraces r) with
      | error e2 =>
        rw [hpa] at h
        simp at h
      | ok t2 =>
        rw [hpa] at h
        have h2 := ih _ m2 h k
        by_cases hk : wsKeyOf r = k
        · subst hk
          have hl1 : lookupA (setValA m (wsKeyOf r) (name, t2)) (wsKeyOf r) =
              some (name, t2) :=
            lookupA_setValA_self _ hml
          rw [hl1] at h2
          simp only [h2, hml, Option.map_some]
        · have hkr : k ≠ wsKeyOf r := fun hh => hk hh.symm
          have hl1 : lookupA (setValA m (wsKeyOf r) (name, t2)) k = lookupA m k :=
            lookupA_setValA_ne m _ hkr
          rw [hl1] at h2
          have hfind : List.find? (fun x => decide (wsKeyOf x = k)) (r :: rs) =
              List.find? (fun x => decide (wsKeyOf x = k)) rs :=
            List.find?_cons_of_neg _ (by simp [hk])
          simp only [h2, hfind]

/-! ## Totality of the project aggregator on null-free input -/

/-- Every stored running total in a project accumulator is a number. -/
def pReady (m : PMap) : Prop := ∀ e ∈ m, (e.2.2.2).isSome = true

theorem aggProjFold_total (wsName : String) (records : List UsageRecord) :
    (∀ r ∈ records, r.traces ≠ TracesVal.null) →
    ∀ m : PMap, pReady m → ∃ m2, aggProjFold wsName m records = Except.ok m2 := by
  induction records with
  | nil => intro _ m _; exact ⟨m, rfl⟩
  | cons r rs ih =>
    intro hv m hm
    have hr : r.traces ≠ TracesVal.null := hv r (List.mem_cons_self _ _)
    have hrs : ∀ x ∈ rs, x.traces ≠ TracesVal.null :=
      fun x hx => hv x (List.mem_cons_of_mem _ hx)
    cases hml : lookupA m (wsName, projKeyOf r) with
    | none =>
      have hm2 : pReady (m ++ [((wsName, projKeyOf r), wsName,
          projLabelOf r.dimensions (projKeyOf r), getTraces r)]) := by
        intro e he
        rcases List.mem_append.mp he with h1 | h1
        · exact hm e h1
        · rw [List.mem_singleton] at h1
          subst h1
          simp [getTraces_of_valid hr]
      obtain ⟨m2, hm2e⟩ := ih hrs _ hm2
      refine ⟨m2, ?_⟩
      simp only [aggProjFold, aggProjStep, hml]
      exact hm2e
    | some e =>
      obtain ⟨w, p, t⟩ := e
      have ht : t.isSome := hm _ (lookupA_mem hml)
      obtain ⟨tv, htv⟩ := Option.isSome_iff_exists.mp ht
      have hpa : pyAdd t (getTraces r) = Except.ok (some (tv + traceInt r)) := by
        rw [htv, getTraces_of_valid hr]
        rfl
      have hm2 : pReady (setValA m (wsName, projKeyOf r)
          (w, p, some (tv + traceInt r))) := by
        intro e he
        rcases mem_setValA he with h1 | h1
        · exact hm e h1
        · subst h1; simp
      obtain ⟨m2, hm2e⟩ := ih hrs _ hm2
      refine ⟨m2, ?_⟩
      simp only [aggProjFold, aggProjStep, hml, hpa]
      exact hm2e

/-! ## Properties of the seen-set deduplication loop -/

theorem dedupGo_sublist [DecidableEq κ] (key : α → κ) :
    ∀ (rows : List α) (seen : List κ), (dedupGo key seen rows).Sublist rows := by
  intro rows
  induction rows with
  | nil => intro seen; simp [dedupGo]
  | cons r rs ih =>
    intro seen
    simp only [dedupGo]
    by_cases h : key r ∈ seen
    · rw [if_pos h]
      exact (ih seen).cons r
    · rw [if_neg h]
      exact (ih _).cons₂ r

theorem dedupGo_not_seen [DecidableEq κ] (key : α → κ) :
    ∀ (rows : List α) (seen : List κ) (r : α),
    r ∈ dedupGo key seen rows → key r ∉ seen := by
  intro rows
  induction rows with
  | nil => intro seen r h; simp [dedupGo] at h
  | cons x xs ih =>
    intro seen r h
    simp only [dedupGo] at h
    by_cases hx : key x ∈ seen
    · rw [if_pos hx] at h
      exact ih seen r h
    · rw [if_neg hx] at h
      rcases List.mem_cons.mp h with h1 | h1
      · subst h1; exact hx
      · intro hc
        exact ih _ r h1 (List.mem_cons_of_mem _ hc)

theorem dedupGo_pairwise [DecidableEq κ] (key : α → κ) :
    ∀ (rows : List α) (seen : List κ),
    (dedupGo key seen rows).Pairwise (fun a b => key a ≠ key b) := by
  intro rows
  induction rows with
  | nil => intro seen; simp [dedupGo]
  | cons x xs ih =>
    intro seen
    simp only [dedupGo]
    by_cases hx : key x ∈ seen
    · rw [if_pos hx]
      exact ih seen
    · rw [if_neg hx]
      refine List.Pairwise.cons ?_ (ih _)
      intro b hb hc
      have hns := dedupGo_not_seen key xs _ b hb
      exact hns (by rw [← hc]; exact List.mem_cons_self _ _)

theorem dedupGo_first [DecidableEq κ] (key : α → κ) :
    ∀ (rows : List α) (seen : List κ) (r : α), r ∈ dedupGo key seen rows →
    rows.find? (fun s => decide (key s = key r)) = some r := by
  intro rows
  induction rows with
  | nil => intro seen r h; simp [dedupGo] at h
  | cons x xs ih =>
    intro seen r h
    simp only [dedupGo] at h
    by_cases hx : key x ∈ seen
    · rw [if_pos hx] at h
      have hne : ¬ key x = key r := by
        intro hc
        exact (dedupGo_not_seen key xs seen r h) (hc ▸ hx)
      rw [List.find?_cons_of_neg _ (by simp [hne])]
      exact ih seen r h
    · rw [if_neg hx] at h
      rcases List.mem_cons.mp h with h1 | h1
      · subst h1
        rw [List.find?_cons_of_pos _ (by simp)]
      · have hr2 := dedupGo_not_seen key xs _ r h1
        have hne : ¬ key x = key r := by
          intro hc
          exact hr2 (by rw [← hc]; exact List.mem_cons_self _ _)
        rw [List.find?_cons_of_neg _ (by simp [hne])]
        exact ih _ r h1

theorem dedupGo_covers [DecidableEq κ] (key : α → κ) :
    ∀ (rows : List α) (seen : List κ) (x : α), x ∈ rows → key x ∉ seen →
    ∃ r ∈ dedupGo key seen rows, key r = key x := by
  intro rows
  induction rows with
  | nil => intro seen x h _; simp at h
  | cons y ys ih =>
    intro seen x hx hns
    simp only [dedupGo]
    by_cases hy : key y ∈ seen
    · rw [if_pos hy]
      rcases List.mem_cons.mp hx with h1 | h1
      · subst h1; exact absurd hy hns
      · exact ih seen x h1 hns
    · rw [if_neg hy]
      by_cases hxy : key x = key y
      · exact ⟨y, List.mem_cons_self _ _, hxy.symm⟩
      · rcases List.mem_cons.mp hx with h1 | h1
        · exact absurd (congrArg key h1) hxy
        · have hnotin : key x ∉ key y :: seen := by
            intro hc
            rcases List.mem_cons.mp hc with h2 | h2
            · exact hxy h2
            · exact hns h2
          obtain ⟨r, hr1, hr2⟩ := ih _ x h1 hnotin
          exact ⟨r, List.mem_cons_of_mem _ hr1, hr2⟩

/-! ## The multi-org merge loop and the stable sort -/

theorem mergeOutcomes_append (xs ys : List (String × Except String (List α))) :
    mergeOutcomes (xs ++ ys) =
      ((mergeOutcomes xs).1 ++ (mergeOutcomes ys).1,
       (mergeOutcomes xs).2 ++ (mergeOutcomes ys).2) := by
  induction xs with
  | nil => simp [mergeOutcomes]
  | cons x rest ih =>
    obtain ⟨name, outcome⟩ := x
    cases outcome with
    | ok rows => simp [mergeOutcomes, ih, List.append_assoc]
    | error e => simp [mergeOutcomes, ih]

theorem pySortBy_of_pairwise (le : α → α → Bool) :
    ∀ l : List α, l.Pairwise (fun a b => le a b = true) → pySortBy le l = l := by
  intro l
  induction l with
  | nil => intro _; rfl
  | cons x xs ih =>
    intro h
    have h1 := List.pairwise_cons.mp h
    simp only [pySortBy]
    rw [ih h1.2]
    cases xs with
    | nil => rfl
    | cons y ys =>
      have hxy : le x y = true := h1.1 y (List.mem_cons_self _ _)
      simp [pyInsert, hxy]

/-! ## Content of the finished workspace aggregation dict -/

theorem aggWs_value_sum {records : List UsageRecord} {k name : String}
    {m : WsMap} {t : Option Int} (hv : validTraces records)
    (hm : aggWs records = Except.ok m)
    (hl : lookupA m k = some (name, t)) :
    t = some (sumK records k) := by
  rw [aggWs_lift hv] at hm
  have hm2 : liftW (aggWsFoldP [] records) = m := by
    simpa using hm
  subst hm2
  rw [lookupA_liftW] at hl
  have hp := aggWsFoldP_lookup records [] k
  simp only [lookupA] at hp
  cases hf : records.find? (fun r => decide (wsKeyOf r = k)) with
  | none =>
    simp only [hf] at hp
    rw [hp] at hl
    simp at hl
  | some r0 =>
    simp only [hf] at hp
    rw [hp] at hl
    have hred : Option.map (fun e : String × Int => (e.1, some e.2))
        (some (labelFor r0, sumK records k)) =
        some (labelFor r0, some (sumK records k)) := rfl
    rw [hred] at hl
    have h2 := (Option.some.injEq _ _).mp hl
    exact (congrArg Prod.snd h2).symm

theorem aggWs_label_first {records : List UsageRecord} {k name : String}
    {m : WsMap} {t : Option Int}
    (hm : aggWs records = Except.ok m)
    (hl : lookupA m k = some (name, t)) :
    ∃ r0, records.find? (fun r => decide (wsKeyOf r = k)) = some r0 ∧
      name = labelFor r0 := by
  have hlab := aggWsFold_label records [] m hm k
  simp only [lookupA] at hlab
  rw [hl] at hlab
  cases hf : records.find? (fun r => decide (wsKeyOf r = k)) with
  | none =>
    rw [hf] at hlab
    simp at hlab
  | some r0 =>
    rw [hf] at hlab
    have hred : Option.map labelFor (some r0) = some (labelFor r0) := rfl
    rw [hred] at hlab
    exact ⟨r0, rfl, (Option.some.injEq _ _).mp hlab⟩

/-! ## Bridge between the Python-valued and the pure project aggregator -/

theorem lookupA_liftP (p : PMapP) (k : String × String) :
    lookupA (liftP p) k =
      (lookupA p k).map (fun e => (e.1, e.2.1, some e.2.2)) := by
  induction p with
  | nil => simp [liftP, lookupA]
  | cons e rest ih =>
    obtain ⟨k1, w1, p1, t1⟩ := e
    by_cases he : k1 = k
    · simp [liftP, lookupA, he]
    · simp only [liftP, List.map_cons] at ih ⊢
      simp [lookupA, he, ih]

theorem setValA_liftP (p : PMapP) (k : String × String) (w pn : String) (t : Int) :
    setValA (liftP p) k (w, pn, some t) = liftP (setValA p k (w, pn, t)) := by
  induction p with
  | nil => simp [liftP, setValA]
  | cons e rest ih =>
    obtain ⟨k1, w1, p1, t1⟩ := e
    simp only [liftP, setValA, List.map_cons] at ih ⊢
    by_cases he : k1 = k
    · simp [he, ih]
    · simp [he, ih]

theorem aggProjFold_lift (wsName : String) (records : List UsageRecord) :
    ∀ p : PMapP, (∀ r ∈ records, r.traces ≠ TracesVal.null) →
    aggProjFold wsName (liftP p) records =
      Except.ok (liftP (aggProjFoldP wsName p records)) := by
  induction records with
  | nil => intro p _; simp [aggProjFold, aggProjFoldP]
  | cons r rs ih =>
    intro p hv
    have hr : r.traces ≠ TracesVal.null := hv r (List.mem_cons_self _ _)
    have hrs : ∀ x ∈ rs, x.traces ≠ TracesVal.null :=
      fun x hx => hv x (List.mem_cons_of_mem _ hx)
    simp only [aggProjFold, aggProjFoldP, aggProjStep, aggProjStepP]
    rw [lookupA_liftP]
    cases hl : lookupA p (wsName, projKeyOf r) with
    | none =>
      have h1 : Option.map
          (fun e : String × String × Int => (e.1, e.2.1, some e.2.2)) none =
          none := rfl
      simp only [h1, getTraces_of_valid hr]
      have h2 : liftP p ++ [((wsName, projKeyOf r), wsName,
          projLabelOf r.dimensions (projKeyOf r), some (traceInt r))] =
          liftP (p ++ [((wsName, projKeyOf r), wsName,
            projLabelOf r.dimensions (projKeyOf r), traceInt r)]) := by
        simp [liftP]
      rw [h2]
      exact ih _ hrs
    | some e =>
      obtain ⟨w, pn, t⟩ := e
      have h1 : Option.map
          (fun e : String × String × Int => (e.1, e.2.1, some e.2.2))
          (some (w, pn, t)) = some (w, pn, some t) := rfl
      simp only [h1, getTraces_of_valid hr, pyAdd]
      rw [setValA_liftP]
      exact ih _ hrs

/-! ## Value and label content of the finished project aggregation dict -/

theorem sumP_cons_eq {r : UsageRecord} {pid : String} (rs : List UsageRecord)
    (h : projKeyOf r = pid) : sumP (r :: rs) pid = traceInt r + sumP rs pid := by
  simp [sumP, List.filter_cons, h]

theorem sumP_cons_ne {r : UsageRecord} {pid : String} (rs : List UsageRecord)
    (h : ¬ projKeyOf r = pid) : sumP (r :: rs) pid = sumP rs pid := by
  simp [sumP, List.filter_cons, h]

theorem aggProjFoldP_lookup (wsName : String) (records : List UsageRecord) :
    ∀ (p : PMapP) (pid : String),
    lookupA (aggProjFoldP wsName p records) (wsName, pid) =
      match lookupA p (wsName, pid) with
      | some e => some (e.1, e.2.1, e.2.2 + sumP records pid)
      | none =>
        match records.find? (fun r => decide (projKeyOf r = pid)) with
        | some r0 => some (wsName, projLabelFor r0, sumP records pid)
        | none => none := by
  induction records with
  | nil =>
    intro p pid
    cases hl : lookupA p (wsName, pid) with
    | none => simp [aggProjFoldP, hl, List.find?]
    | some e => simp [aggProjFoldP, hl, sumP]
  | cons r rs ih =>
    intro p pid
    by_cases hk : projKeyOf r = pid
    · subst hk
      cases hl : lookupA p (wsName, projKeyOf r) with
      | some e =>
        obtain ⟨w, pn, t⟩ := e
        have hstepl : lookupA (aggProjStepP wsName p r) (wsName, projKeyOf r) =
            some (w, pn, t + traceInt r) := by
          simp only [aggProjStepP, hl]
          exact lookupA_setValA_self _ hl
        have h2 := ih (aggProjStepP wsName p r) (projKeyOf r)
        simp only [hstepl] at h2
        simp only [aggProjFoldP, h2, hl, sumP_cons_eq rs rfl, add_assoc]
      | none =>
        have hstepl : lookupA (aggProjStepP wsName p r) (wsName, projKeyOf r) =
            some (wsName, projLabelFor r, traceInt r) := by
          simp only [aggProjStepP, hl, projLabelFor]
          rw [lookupA_append_of_none _ hl]
          exact lookupA_singleton_self _ _
        have h2 := ih (aggProjStepP wsName p r) (projKeyOf r)
        simp only [hstepl] at h2
        have hfind : List.find? (fun x => decide (projKeyOf x = projKeyOf r))
            (r :: rs) = some r :=
          List.find?_cons_of_pos _ (by simp)
        simp only [aggProjFoldP, h2, hl, hfind, sumP_cons_eq rs rfl]
    · have hkey : ((wsName, pid) : String × String) ≠ (wsName, projKeyOf r) :=
        fun hh => hk (congrArg Prod.snd hh).symm
      have hkey2 : ((wsName, projKeyOf r) : String × String) ≠ (wsName, pid) :=
        fun hh => hk (congrArg Prod.snd hh)
      have hstepl : lookupA (aggProjStepP wsName p r) (wsName, pid) =
          lookupA p (wsName, pid) := by
        cases hpr : lookupA p (wsName, projKeyOf r) with
        | none =>
          simp only [aggProjStepP, hpr]
          cases hpk : lookupA p (wsName, pid) with
          | some v => rw [lookupA_append_of_some _ hpk]
          | none =>
            rw [lookupA_append_of_none _ hpk, lookupA_singleton_ne _ hkey2]
        | some e =>
          obtain ⟨w, pn, t⟩ := e
          simp only [aggProjStepP, hpr]
          exact lookupA_setValA_ne p _ hkey
      have h2 := ih (aggProjStepP wsName p r) pid
      rw [hstepl] at h2
      have hfind : List.find? (fun x => decide (projKeyOf x = pid)) (r :: rs) =
          List.find? (fun x => decide (projKeyOf x = pid)) rs :=
        List.find?_cons_of_neg _ (by simp [hk])
      simp only [aggProjFoldP, h2, hfind, sumP_cons_ne rs hk]

theorem aggProjFold_label (wsName : String) (records : List UsageRecord) :
    ∀ (m m2 : PMap), aggProjFold wsName m records = Except.ok m2 → ∀ pid,
    (lookupA m2 (wsName, pid)).map (fun e => e.2.1) =
      match lookupA m (wsName, pid) with
      | some e => some e.2.1
      | none =>
        (records.find? (fun r => decide (projKeyOf r = pid))).map projLabelFor := by
  induction records with
  | nil =>
    intro m m2 h pid
    simp only [aggProjFold, Except.ok.injEq] at h
    subst h
    cases hl : lookupA m (wsName, pid) with
    | none => simp [hl, List.find?]
    | some e => simp [hl]
  | cons r rs ih =>
    intro m m2 h pid
    simp only [aggProjFold, aggProjStep] at h
    cases hml : lookupA m (wsName, projKeyOf r) with
    | none =>
      simp only [hml] at h
      have h2 := ih _ m2 h pid
      by_cases hk : projKeyOf r = pid
      · subst hk
        have hl1 : lookupA (m ++ [((wsName, projKeyOf r), wsName,
            projLabelOf r.dimensions (projKeyOf r), getTraces r)])
            (wsName, projKeyOf r) =
            some (wsName, projLabelOf r.dimensions (projKeyOf r), getTraces r) := by
          rw [lookupA_append_of_none _ hml]
          exact lookupA_singleton_self _ _
        simp only [hl1] at h2
        have hfind : List.find? (fun x => decide (projKeyOf x = projKeyOf r))
            (r :: rs) = some r :=
          List.find?_cons_of_pos _ (by simp)
        simp [h2, hml, hfind, projLabelFor]
      · have hkey2 : ((wsName, projKeyOf r) : String × String) ≠ (wsName, pid) :=
          fun hh => hk (congrArg Prod.snd hh)
        have hl1 : lookupA (m ++ [((wsName, projKeyOf r), wsName,
            projLabelOf r.dimensions (projKeyOf r), getTraces r)]) (wsName, pid) =
            lookupA m (wsName, pid) := by
          cases hpk : lookupA m (wsName, pid) with
          | some v => rw [lookupA_append_of_some _ hpk]
          | none =>
            rw [lookupA_append_of_none _ hpk, lookupA_singleton_ne _ hkey2]
        rw [hl1] at h2
        have hfind : List.find? (fun x => decide (projKeyOf x = pid)) (r :: rs) =
            List.find? (fun x => decide (projKeyOf x = pid)) rs :=
          List.find?_cons_of_neg _ (by simp [hk])
        simp only [h2, hfind]
    | some e =>
      obtain ⟨w, pn, t⟩ := e
      simp only [hml] at h
      cases hpa : pyAdd t (getTraces r) with
      | error e2 =>
        rw [hpa] at h
        simp at h
      | ok t2 =>
        rw [hpa] at h
        have h2 := ih _ m2 h pid
        by_cases hk : projKeyOf r = pid
        · subst hk
          have hl1 : lookupA (setValA m (wsName, projKeyOf r) (w, pn, t2))
              (wsName, projKeyOf r) = some (w, pn, t2) :=
            lookupA_setValA_self _ hml
          rw [hl1] at h2
          simp [h2, hml]
        · have hkey : ((wsName, pid) : String × String) ≠ (wsName, projKeyOf r) :=
            fun hh => hk (congrArg Prod.snd hh).symm
          have hl1 : lookupA (setValA m (wsName, projKeyOf r) (w, pn, t2))
              (wsName, pid) = lookupA m (wsName, pid) :=
            lookupA_setValA_ne m _ hkey
          rw [hl1] at h2
          have hfind : List.find? (fun x => decide (projKeyOf x = pid)) (r :: rs) =
              List.find? (fun x => decide (projKeyOf x = pid)) rs :=
            List.find?_cons_of_neg _ (by simp [hk])
          simp only [h2, hfind]

theorem aggProj_value_sum {records : List UsageRecord} {wsName pid w pn : String}
    {mp : PMap} {tp : Option Int} (hv : validTraces records)
    (hm : aggProjFold wsName [] records = Except.ok mp)
    (hl : lookupA mp (wsName, pid) = some (w, pn, tp)) :
    tp = some (sumP records pid) := by
  have h0 : liftP [] = ([] : PMap) := rfl
  rw [← h0, aggProjFold_lift wsName records [] hv] at hm
  have hm2 : liftP (aggProjFoldP wsName [] records) = mp := by
    simpa using hm
  subst hm2
  rw [lookupA_liftP] at hl
  have hp := aggProjFoldP_lookup wsName records [] pid
  simp only [lookupA] at hp
  cases hf : records.find? (fun r => decide (projKeyOf r = pid)) with
  | none =>
    simp only [hf] at hp
    rw [hp] at hl
    simp at hl
  | some r0 =>
    simp only [hf] at hp
    rw [hp] at hl
    have hred : Option.map
        (fun e : String × String × Int => (e.1, e.2.1, some e.2.2))
        (some (wsName, projLabelFor r0, sumP records pid)) =
        some (wsName, projLabelFor r0, some (sumP records pid)) := rfl
    rw [hred] at hl
    have h2 := (Option.some.injEq _ _).mp hl
    exact (congrArg (fun x : String × String × Option Int => x.2.2) h2).symm

theorem aggProj_label_first {records : List UsageRecord} {wsName pid w pn : String}
    {mp : PMap} {tp : Option Int}
    (hm : aggProjFold wsName [] records = Except.ok mp)
    (hl : lookupA mp (wsName, pid) = some (w, pn, tp)) :
    ∃ r0, records.find? (fun r => decide (projKeyOf r = pid)) = some r0 ∧
      pn = projLabelFor r0 := by
  have hlab := aggProjFold_label wsName records [] mp hm pid
  simp only [lookupA] at hlab
  rw [hl] at hlab
  cases hf : records.find? (fun r => decide (projKeyOf r = pid)) with
  | none =>
    rw [hf] at hlab
    simp at hlab
  | some r0 =>
    rw [hf] at hlab
    have hred : Option.map projLabelFor (some r0) = some (projLabelFor r0) := rfl
    rw [hred] at hlab
    exact ⟨r0, rfl, (Option.some.injEq _ _).mp hlab⟩

/-! ## Claim theorems -/

/-- C2 counterexample: an overview-mode run whose only row has value 0
does NOT retain that row — the Report Finalizer drops it, so the claim
that zero rows are retained in every overview-mode run is false. -/
theorem C2_counterexample :
    finalizeO [⟨"o", "w", "m", 0⟩] = [] := rfl

/-- C2 (amended): the Report Finalizer removes zero-valued rows in EVERY
mode, overview included: any row surviving the overview finalizer has a
nonzero `value`, and any row surviving the granular finalizer has a
truthy (non-null, nonzero) `traces` count; survivors come from the
input. -/
theorem C2_zero_filter_all_modes (orows : List OverviewRow)
    (wrows : List WorkspaceRow) :
    (∀ r ∈ finalizeO orows, r ∈ orows ∧ r.value ≠ 0) ∧
    (∀ s ∈ finalizeW wrows, s ∈ wrows ∧ truthy s.traces = true) := by
  constructor
  · intro r hr
    simp only [finalizeO, dedupBy] at hr
    have hr2 : r ∈ dropZeroO orows :=
      (dedupGo_sublist dedupKeyO (dropZeroO orows) []).subset hr
    have hr3 := List.mem_filter.mp hr2
    exact ⟨hr3.1, of_decide_eq_true hr3.2⟩
  · intro s hs
    simp only [finalizeW, dedupBy] at hs
    have hs2 : s ∈ dropZeroW wrows :=
      (dedupGo_sublist dedupKeyW (dropZeroW wrows) []).subset hs
    have hs3 := List.mem_filter.mp hs2
    exact ⟨hs3.1, hs3.2⟩

/-- C2 witness: a nonzero overview row survives its finalizer, and the
theorem applied to it yields membership and nonzero value. -/
theorem C2_witness :
    (⟨"o", "w", "m", 5⟩ : OverviewRow) ∈ finalizeO [⟨"o", "w", "m", 5⟩] ∧
    ((⟨"o", "w", "m", 5⟩ : OverviewRow) ∈ [(⟨"o", "w", "m", 5⟩ : OverviewRow)] ∧
      (⟨"o", "w", "m", 5⟩ : OverviewRow).value ≠ 0) :=
  ⟨by decide,
   (C2_zero_filter_all_modes [⟨"o", "w", "m", 5⟩] []).1 _ (by decide)⟩

/-- C3 counterexample: on the reference scenario the aggregated rows
carry the fallback labels `[unknown workspace: w1]` / `[unknown
workspace: w2]`, not the known display names `Alpha` / `Beta` — the
workspace map is never consulted by `build_workspace_rows`, so the
claimed output `[{workspace: Alpha, traces: 8}, {workspace: Beta,
traces: 0}]` is not produced. -/
theorem C3_counterexample :
    build_workspace_rows scenRecs "Org" =
      Except.ok [⟨"Org", "[unknown workspace: w1]", some 8⟩,
                 ⟨"Org", "[unknown workspace: w2]", some 0⟩] ∧
    ([⟨"Org", "[unknown workspace: w1]", some 8⟩,
      ⟨"Org", "[unknown workspace: w2]", some 0⟩] : List WorkspaceRow) ≠
      [⟨"Org", "Alpha", some 8⟩, ⟨"Org", "Beta", some 0⟩] :=
  ⟨rfl, by decide⟩

/-- C3 (amended): on the reference scenario records, workspace grouping
aggregates `w1` to 8 and `w2` to 0 as claimed, but the row labels are
the `[unknown workspace: <id>]` fallbacks (the records carry no
`workspace_name` dimension and the known-workspaces map is not used);
zero-filtering then leaves exactly the `w1` row. -/
theorem C3_scenario :
    build_workspace_rows scenRecs "Org" =
      Except.ok [⟨"Org", "[unknown workspace: w1]", some 8⟩,
                 ⟨"Org", "[unknown workspace: w2]", some 0⟩] ∧
    dropZeroW [⟨"Org", "[unknown workspace: w1]", some 8⟩,
               ⟨"Org", "[unknown workspace: w2]", some 0⟩] =
      [⟨"Org", "[unknown workspace: w1]", some 8⟩] :=
  ⟨rfl, rfl⟩

/-- C4 counterexample: building rows does not always succeed — a record
whose `traces` field is null makes the accumulator store Python `None`,
and a second record for the same workspace then raises a TypeError on
`entry[1] += value`, so normalization/aggregation is not total. -/
theorem C4_counterexample :
    build_workspace_rows nullRecs "o" = Except.error pyAddErr := rfl

/-- C4 (amended): when no record carries a present-but-null numeric
value, building rows always succeeds in both granular modes; a record
whose `traces` field is MISSING contributes the `get` default 0, and a
record with no dimension fields degrades to the empty-string key and the
placeholder label instead of raising. -/
theorem C4_total_on_null_free (records : List UsageRecord)
    (orgName wsName : String) (h : validTraces records) :
    (∃ rows, build_workspace_rows records orgName = Except.ok rows) ∧
    (∃ prows, build_project_rows records orgName wsName = Except.ok prows) ∧
    wsKeyOf ⟨[], TracesVal.absent⟩ = "" ∧
    labelFor ⟨[], TracesVal.absent⟩ = "[unknown workspace: ]" ∧
    getTraces ⟨[], TracesVal.absent⟩ = some 0 := by
  refine ⟨?_, ?_, rfl, rfl, rfl⟩
  · refine ⟨pySortBy wsRowLe ((liftW (aggWsFoldP [] records)).map
      (fun e => ⟨orgName, e.2.1, e.2.2⟩)), ?_⟩
    simp only [build_workspace_rows, aggWs_lift h]
  · obtain ⟨m2, hm2⟩ := aggProjFold_total wsName records
      (fun r hr => h r hr) [] (by intro e he; simp at he)
    refine ⟨pySortBy projRowLe (m2.map
      (fun e => ⟨orgName, e.2.1, e.2.2.1, e.2.2.2⟩)), ?_⟩
    simp only [build_project_rows, hm2]

/-- C4 witness: the null-free scenario records build successfully in
both modes, and the degraded-key facts hold. -/
theorem C4_witness :
    validTraces scenRecs ∧
    ((∃ rows, build_workspace_rows scenRecs "Org" = Except.ok rows) ∧
     (∃ prows, build_project_rows scenRecs "Org" "WS" = Except.ok prows) ∧
     wsKeyOf ⟨[], TracesVal.absent⟩ = "" ∧
     labelFor ⟨[], TracesVal.absent⟩ = "[unknown workspace: ]" ∧
     getTraces ⟨[], TracesVal.absent⟩ = some 0) :=
  ⟨by decide, C4_total_on_null_free scenRecs "Org" "WS" (by decide)⟩

/-- C5: sum invariant in BOTH granular aggregators — for any null-free
record list and any aggregation key, the running total stored for that
key in the finished aggregation dict of `build_workspace_rows` is
exactly the integer sum of the values of all records mapping to that
workspace key, and the total stored for a `(workspace, project)` key in
the finished dict of `build_project_rows` is exactly the sum over the
records mapping to that project key; nothing is dropped and no rounding
occurs (the sums are exact integer arithmetic). -/
theorem C5_sum_invariant (records : List UsageRecord) (hv : validTraces records)
    (k name wsName pid w pn : String) (m : WsMap) (mp : PMap)
    (t tp : Option Int) :
    (aggWs records = Except.ok m → lookupA m k = some (name, t) →
      t = some (sumK records k)) ∧
    (aggProjFold wsName [] records = Except.ok mp →
      lookupA mp (wsName, pid) = some (w, pn, tp) →
      tp = some (sumP records pid)) :=
  ⟨fun hm hl => aggWs_value_sum hv hm hl,
   fun hm hl => aggProj_value_sum hv hm hl⟩

/-- C5 witness: on the reference scenario key `w1` holds 8 = 5 + 3, and
on the project records key `(Dup, p1)` holds 15 = 10 + 5. -/
theorem C5_witness :
    validTraces scenRecs ∧
    validTraces projRecs ∧
    aggWs scenRecs = Except.ok scenMap ∧
    lookupA scenMap "w1" = some ("[unknown workspace: w1]", some 8) ∧
    (some 8 : Option Int) = some (sumK scenRecs "w1") ∧
    aggProjFold "Dup" [] projRecs = Except.ok projMapEx ∧
    lookupA projMapEx ("Dup", "p1") = some ("Dup", "P", some 15) ∧
    (some 15 : Option Int) = some (sumP projRecs "p1") :=
  ⟨by decide, by decide, rfl, rfl,
   (C5_sum_invariant scenRecs (by decide) "w1" "[unknown workspace: w1]"
      "Dup" "p1" "Dup" "P" scenMap projMapEx (some 8) (some 15)).1 rfl rfl,
   rfl, rfl,
   (C5_sum_invariant projRecs (by decide) "w1" "[unknown workspace: w1]"
      "Dup" "p1" "Dup" "P" scenMap projMapEx (some 8) (some 15)).2 rfl rfl⟩

/-- C6: first-write-wins name stability in BOTH granular aggregators —
whenever aggregation finishes, the label stored for a key is the label
derived from the FIRST record that introduced that key (`find?` returns
the first match): the workspace label in `build_workspace_rows` and the
project label in `build_project_rows`.  A later record for the same key
with an empty or different label never overwrites it, while on
null-free input the later records' numeric values are still added to
the running total. -/
theorem C6_first_write_wins (records : List UsageRecord)
    (k name wsName pid w pn : String) (m : WsMap) (mp : PMap)
    (t tp : Option Int) :
    (aggWs records = Except.ok m → lookupA m k = some (name, t) →
      (∃ r0, records.find? (fun r => decide (wsKeyOf r = k)) = some r0 ∧
         name = labelFor r0) ∧
      (validTraces records → t = some (sumK records k))) ∧
    (aggProjFold wsName [] records = Except.ok mp →
      lookupA mp (wsName, pid) = some (w, pn, tp) →
      (∃ r0, records.find? (fun r => decide (projKeyOf r = pid)) = some r0 ∧
         pn = projLabelFor r0) ∧
      (validTraces records → tp = some (sumP records pid))) :=
  ⟨fun hm hl => ⟨aggWs_label_first hm hl, fun hv => aggWs_value_sum hv hm hl⟩,
   fun hm hl => ⟨aggProj_label_first hm hl, fun hv => aggProj_value_sum hv hm hl⟩⟩

/-- C6 witness: in workspace grouping the first record carries the real
label `Real` and the second an empty one — the finished entry keeps
`Real` and sums 1 + 2 = 3; in project grouping the first record carries
project name `P` and the second an empty one — the finished entry keeps
`P` and sums 10 + 5 = 15. -/
theorem C6_witness :
    aggWs nameRecs = Except.ok nameMap ∧
    lookupA nameMap "w" = some ("Real", some 3) ∧
    ((∃ r0, nameRecs.find? (fun r => decide (wsKeyOf r = "w")) = some r0 ∧
        "Real" = labelFor r0) ∧
     (validTraces nameRecs → (some 3 : Option Int) = some (sumK nameRecs "w"))) ∧
    aggProjFold "Dup" [] projRecs = Except.ok projMapEx ∧
    lookupA projMapEx ("Dup", "p1") = some ("Dup", "P", some 15) ∧
    ((∃ r0, projRecs.find? (fun r => decide (projKeyOf r = "p1")) = some r0 ∧
        "P" = projLabelFor r0) ∧
     (validTraces projRecs → (some 15 : Option Int) = some (sumP projRecs "p1"))) :=
  ⟨rfl, rfl,
   (C6_first_write_wins nameRecs "w" "Real" "Dup" "p1" "Dup" "P"
      nameMap projMapEx (some 3) (some 15)).1 rfl rfl,
   rfl, rfl,
   (C6_first_write_wins projRecs "w" "Real" "Dup" "p1" "Dup" "P"
      nameMap projMapEx (some 3) (some 15)).2 rfl rfl⟩

/-- C1 counterexample: a workspace index containing `w1` together with
an empty usage response yields NO rows at all — in particular no
zero-valued row for `w1` — so the claim that every indexed workspace
appears in the aggregated result before zero-value filtering is false. -/
theorem C1_counterexample :
    fetchOrgRowsWorkspaceLevel [("w1", "Alpha")] [] "Org" = Except.ok [] := rfl

/-- C1 (amended): there is no zero-fill — the workspace index does not
influence the built rows at all (any two non-empty indexes give the same
output for the same usage response), and the finished aggregation dict
contains a key if and only if some usage record referenced that
workspace id. -/
theorem C1_no_zero_fill (wsIndex1 wsIndex2 : List (String × String))
    (records : List UsageRecord) (orgName k : String) (m : WsMap)
    (h1 : wsIndex1 ≠ []) (h2 : wsIndex2 ≠ [])
    (hm : aggWs records = Except.ok m) :
    fetchOrgRowsWorkspaceLevel wsIndex1 records orgName =
      fetchOrgRowsWorkspaceLevel wsIndex2 records orgName ∧
    ((lookupA m k).isSome = true ↔ k ∈ records.map wsKeyOf) := by
  constructor
  · have e1 : wsIndex1.isEmpty = false := by
      cases wsIndex1 with
      | nil => exact absurd rfl h1
      | cons a l => rfl
    have e2 : wsIndex2.isEmpty = false := by
      cases wsIndex2 with
      | nil => exact absurd rfl h2
      | cons a l => rfl
    simp [fetchOrgRowsWorkspaceLevel, e1, e2]
  · have hlab := aggWsFold_label records [] m hm k
    simp only [lookupA] at hlab
    constructor
    · intro hs
      obtain ⟨v, hv⟩ := Option.isSome_iff_exists.mp hs
      obtain ⟨n2, t2⟩ := v
      rw [hv] at hlab
      cases hf : records.find? (fun r => decide (wsKeyOf r = k)) with
      | none =>
        rw [hf] at hlab
        simp at hlab
      | some r0 =>
        have hr0 := List.find?_some hf
        have hmem := List.mem_of_find?_eq_some hf
        have hkr : wsKeyOf r0 = k := of_decide_eq_true hr0
        exact List.mem_map.mpr ⟨r0, hmem, hkr⟩
    · intro hk
      obtain ⟨r0, hr0m, hr0k⟩ := List.mem_map.mp hk
      cases hf : records.find? (fun r => decide (wsKeyOf r = k)) with
      | none =>
        have := List.find?_eq_none.mp hf r0 hr0m
        exact absurd (decide_eq_true hr0k) this
      | some r1 =>
        rw [hf] at hlab
        cases hml : lookupA m k with
        | none =>
          rw [hml] at hlab
          simp at hlab
        | some e => simp [hml]

/-- C1 witness: concrete indexes, the scenario records and its finished
dict discharge the amended theorem's hypotheses. -/
theorem C1_witness :
    ([("w1", "Alpha")] : List (String × String)) ≠ [] ∧
    ([("w2", "Beta")] : List (String × String)) ≠ [] ∧
    aggWs scenRecs = Except.ok scenMap ∧
    (fetchOrgRowsWorkspaceLevel [("w1", "Alpha")] scenRecs "Org" =
       fetchOrgRowsWorkspaceLevel [("w2", "Beta")] scenRecs "Org" ∧
     ((lookupA scenMap "w1").isSome = true ↔ "w1" ∈ scenRecs.map wsKeyOf)) :=
  ⟨by decide, by decide, rfl,
   C1_no_zero_fill [("w1", "Alpha")] [("w2", "Beta")] scenRecs "Org" "w1"
     scenMap (by decide) (by decide) rfl⟩

/-- C7: after the Report Finalizer runs, no two rows share a dedup key
(in any of the three modes); on input sorted by the full
`(org, workspace, project, metric)` tuple the result remains sorted;
the kept rows are a sublist of the zero-filtered input, each kept row is
the FIRST occurrence of its key, every key of the input survives, and
the reported removed-count (length difference) accounts exactly for the
dropped rows. -/
theorem C7_finalizer_dedup (rws : List WorkspaceRow) (rps : List ProjectRow)
    (ros : List OverviewRow)
    (hw : rws.Pairwise (fun a b => fullLeW a b = true))
    (hp : rps.Pairwise (fun a b => fullLeP a b = true))
    (ho : ros.Pairwise (fun a b => fullLeO a b = true)) :
    (finalizeW rws).Pairwise (fun a b => dedupKeyW a ≠ dedupKeyW b) ∧
    (finalizeW rws).Pairwise (fun a b => fullLeW a b = true) ∧
    (finalizeW rws).Sublist (dropZeroW rws) ∧
    (∀ r ∈ finalizeW rws,
      (dropZeroW rws).find? (fun s => decide (dedupKeyW s = dedupKeyW r)) = some r) ∧
    (∀ x ∈ dropZeroW rws, ∃ r ∈ finalizeW rws, dedupKeyW r = dedupKeyW x) ∧
    ((finalizeW rws).length + ((dropZeroW rws).length - (finalizeW rws).length) =
      (dropZeroW rws).length) ∧
    (finalizeP rps).Pairwise (fun a b => dedupKeyP a ≠ dedupKeyP b) ∧
    (finalizeP rps).Pairwise (fun a b => fullLeP a b = true) ∧
    (finalizeO ros).Pairwise (fun a b => dedupKeyO a ≠ dedupKeyO b) ∧
    (finalizeO ros).Pairwise (fun a b => fullLeO a b = true) := by
  have hdw : (dropZeroW rws).Pairwise (fun a b => fullLeW a b = true) :=
    hw.sublist (List.filter_sublist rws)
  have hdp : (dropZeroP rps).Pairwise (fun a b => fullLeP a b = true) :=
    hp.sublist (List.filter_sublist rps)
  have hdo : (dropZeroO ros).Pairwise (fun a b => fullLeO a b = true) :=
    ho.sublist (List.filter_sublist ros)
  refine ⟨dedupGo_pairwise dedupKeyW (dropZeroW rws) [],
    hdw.sublist (dedupGo_sublist dedupKeyW (dropZeroW rws) []),
    dedupGo_sublist dedupKeyW (dropZeroW rws) [],
    fun r hr => dedupGo_first dedupKeyW (dropZeroW rws) [] r hr,
    fun x hx => dedupGo_covers dedupKeyW (dropZeroW rws) [] x hx (by simp),
    Nat.add_sub_cancel' (dedupGo_sublist dedupKeyW (dropZeroW rws) []).length_le,
    dedupGo_pairwise dedupKeyP (dropZeroP rps) [],
    hdp.sublist (dedupGo_sublist dedupKeyP (dropZeroP rps) []),
    dedupGo_pairwise dedupKeyO (dropZeroO ros) [],
    hdo.sublist (dedupGo_sublist dedupKeyO (dropZeroO ros) [])⟩

/-- C7 witness: two sorted workspace rows and empty project/overview
row lists discharge the sortedness hypotheses. -/
theorem C7_witness :
    wRowsEx.Pairwise (fun a b => fullLeW a b = true) ∧
    (([] : List ProjectRow).Pairwise (fun a b => fullLeP a b = true)) ∧
    (([] : List OverviewRow).Pairwise (fun a b => fullLeO a b = true)) ∧
    ((finalizeW wRowsEx).Pairwise (fun a b => dedupKeyW a ≠ dedupKeyW b) ∧
     (finalizeW wRowsEx).Pairwise (fun a b => fullLeW a b = true) ∧
     (finalizeW wRowsEx).Sublist (dropZeroW wRowsEx) ∧
     (∀ r ∈ finalizeW wRowsEx,
       (dropZeroW wRowsEx).find?
         (fun s => decide (dedupKeyW s = dedupKeyW r)) = some r) ∧
     (∀ x ∈ dropZeroW wRowsEx,
       ∃ r ∈ finalizeW wRowsEx, dedupKeyW r = dedupKeyW x) ∧
     ((finalizeW wRowsEx).length +
        ((dropZeroW wRowsEx).length - (finalizeW wRowsEx).length) =
        (dropZeroW wRowsEx).length) ∧
     (finalizeP ([] : List ProjectRow)).Pairwise
       (fun a b => dedupKeyP a ≠ dedupKeyP b) ∧
     (finalizeP ([] : List ProjectRow)).Pairwise (fun a b => fullLeP a b = true) ∧
     (finalizeO ([] : List OverviewRow)).Pairwise
       (fun a b => dedupKeyO a ≠ dedupKeyO b) ∧
     (finalizeO ([] : List OverviewRow)).Pairwise
       (fun a b => fullLeO a b = true)) :=
  ⟨by decide, List.Pairwise.nil, List.Pairwise.nil,
   C7_finalizer_dedup wRowsEx [] [] (by decide)
     List.Pairwise.nil List.Pairwise.nil⟩

/-- C8: failure isolation in the multi-org merge loop — replacing one
task's outcome by an error removes exactly that task's rows from the
merged result, records exactly one failure under that task's org name in
arrival position, and leaves every other task's contribution (both rows
and failures) unchanged; a successful task contributes exactly its rows. -/
theorem C8_failure_isolation
    (pre post : List (String × Except String (List WorkspaceRow)))
    (name e : String) (rows : List WorkspaceRow) :
    (mergeOutcomes (pre ++ (name, Except.error e) :: post)).1 =
      (mergeOutcomes pre).1 ++ (mergeOutcomes post).1 ∧
    (mergeOutcomes (pre ++ (name, Except.error e) :: post)).2 =
      (mergeOutcomes pre).2 ++ (name, e) :: (mergeOutcomes post).2 ∧
    (mergeOutcomes (pre ++ (name, Except.ok rows) :: post)).1 =
      (mergeOutcomes pre).1 ++ rows ++ (mergeOutcomes post).1 ∧
    (mergeOutcomes (pre ++ (name, Except.ok rows) :: post)).2 =
      (mergeOutcomes pre).2 ++ (mergeOutcomes post).2 := by
  refine ⟨?_, ?_, ?_, ?_⟩ <;>
    simp [mergeOutcomes_append, mergeOutcomes, List.append_assoc]

/-- C9 counterexample: for a single failing task the direct single-org
path propagates the error and aborts the run, while the multi-org
scheduler path catches it and still produces an (empty) report with a
recorded failure — the two paths are observably different. -/
theorem C9_counterexample :
    runSinglePath ("o", Except.error "boom") = Except.error "boom" ∧
    runMultiPath [("o", Except.error "boom")] = ([], [("o", "boom")]) ∧
    runSinglePath ("o", Except.error "boom") ≠
      Except.ok (runMultiPath [("o", Except.error "boom")]) :=
  ⟨rfl, rfl, by intro h; simp [runSinglePath] at h⟩

/-- C9 (amended): for a single SUCCESSFUL task whose rows are already
sorted by the full key tuple (as `fetch_org_rows` guarantees), the
direct path and the scheduler path produce the same rows and the same
(empty) failure list. -/
theorem C9_single_task_equiv (org : String) (rows : List WorkspaceRow)
    (h : rows.Pairwise (fun a b => fullLeW a b = true)) :
    runSinglePath (org, Except.ok rows) = Except.ok (rows, []) ∧
    runMultiPath [(org, Except.ok rows)] = (rows, []) := by
  refine ⟨rfl, ?_⟩
  simp [runMultiPath, mergeOutcomes, pySortBy_of_pairwise fullLeW rows h]

/-- C9 witness: two sorted rows run identically through both paths. -/
theorem C9_witness :
    wRowsEx.Pairwise (fun a b => fullLeW a b = true) ∧
    (runSinglePath ("o", Except.ok wRowsEx) = Except.ok (wRowsEx, []) ∧
     runMultiPath [("o", Except.ok wRowsEx)] = (wRowsEx, [])) :=
  ⟨by decide, C9_single_task_equiv "o" wRowsEx (by decide)⟩

/-- C10: the final deduplication compares rows only by their
display-name key tuple `(org, workspace, project)` and discards rather
than sums — the kept rows are an unmodified sublist of the input with
pairwise-distinct keys, each kept row is the first occurrence of its
key, and every later row with the same labels is dropped.  Concretely:
two distinct workspaces both displayed as `Dup`, holding distinct
projects both displayed as `P` with 10 and 7 traces, produce two rows
through the project-level pipeline, and the finalizer keeps only the
first — the 7 traces vanish from the output total. -/
theorem C10_dedup_by_labels (rows : List ProjectRow) :
    (dedupBy dedupKeyP rows).Sublist rows ∧
    (dedupBy dedupKeyP rows).Pairwise (fun a b => dedupKeyP a ≠ dedupKeyP b) ∧
    (∀ r ∈ dedupBy dedupKeyP rows,
      rows.find? (fun s => decide (dedupKeyP s = dedupKeyP r)) = some r) ∧
    (∀ x ∈ rows, ∃ r ∈ dedupBy dedupKeyP rows, dedupKeyP r = dedupKeyP x) ∧
    fetchOrgRowsProjectLevel [("id1", "Dup"), ("id2", "Dup")] exFetch "Org" =
      Except.ok exPRows ∧
    finalizeP exPRows = [⟨"Org", "Dup", "P", some 10⟩] :=
  ⟨dedupGo_sublist dedupKeyP rows [],
   dedupGo_pairwise dedupKeyP rows [],
   fun r hr => dedupGo_first dedupKeyP rows [] r hr,
   fun x hx => dedupGo_covers dedupKeyP rows [] x hx (by simp),
   rfl, rfl⟩

/-- C10 witness: on the concrete duplicate-label rows the first
occurrence is kept and found first. -/
theorem C10_witness :
    (⟨"Org", "Dup", "P", some 10⟩ : ProjectRow) ∈ dedupBy dedupKeyP exPRows ∧
    exPRows.find? (fun s => decide (dedupKeyP s =
      dedupKeyP (⟨"Org", "Dup", "P", some 10⟩ : ProjectRow))) =
      some ⟨"Org", "Dup", "P", some 10⟩ :=
  ⟨by decide, (C10_dedup_by_labels exPRows).2.2.1 _ (by decide)⟩
